import Mathlib

/-!
Shallow embedding of the TechPulse ingestion-and-aggregation pipeline.

Strings are modelled as `List Char`.  JavaScript string values that may be
`undefined`/`null` are modelled as `Option (List Char)` where the call site
distinguishes them, and as `List Char` with `[]` for the empty/falsy value
where JavaScript's own truthiness test collapses `undefined` and `""`.
JavaScript numbers are modelled as `ℚ` (all numbers arising in the pipeline
are small exact ratios or integers).  Timestamps are modelled as `Int`
milliseconds; a JavaScript `Date` value is `Option Int` with `none` standing
for an Invalid Date (NaN time value).  ASCII case folding models
`toLowerCase` (all keywords and tags in the source are ASCII).
-/

/-- Characters treated as whitespace, modelling the ASCII part of the
JavaScript `\s` class used by `trim`, `split(/\s+/)` and `replace(/\s+/g)`. -/
def isWs (c : Char) : Bool :=
  c = ' ' || c = '\t' || c = '\n' || c = '\r' || c = Char.ofNat 11 || c = Char.ofNat 12

/-- Characters matched by `.` in a regex without the `s` flag
(JavaScript excludes line terminators). -/
def isDotOk (c : Char) : Bool :=
  !(c = '\n' || c = '\r' || c = Char.ofNat 0x2028 || c = Char.ofNat 0x2029)

/-- ASCII lower-casing of one character, modelling `toLowerCase` on the
ASCII range (`Char.toLower` lowers exactly A-Z). -/
def toLowerList (s : List Char) : List Char := s.map Char.toLower

/-- `text.includes(pat)`: substring containment test of JavaScript strings. -/
def includes : List Char → List Char → Bool
  | t, pat =>
    match t with
    | [] => pat.isEmpty
    | _ :: rest => pat.isPrefixOf t || includes rest pat

/-- `s.trim()` (left part): drop leading whitespace. -/
def trimLeft (s : List Char) : List Char := s.dropWhile isWs

/-- `s.trim()`: drop leading and trailing whitespace. -/
def trim (s : List Char) : List Char :=
  ((s.dropWhile isWs).reverse.dropWhile isWs).reverse

/-- Fuel-driven kernel of `removeTags`; fuel bounds the number of removed
tags.  Models one pass of `replace(/<[^>]*>/g, '')`: at a `<`, the regex
matches greedily up to the first following `>` and the whole span is
dropped; a `<` with no later `>` cannot complete a match and every later
character is likewise left untouched. -/
def removeTagsF : Nat → List Char → List Char
  | 0, s => s
  | _ + 1, [] => []
  | fuel + 1, c :: rest =>
    if c = '<' then
      match rest.findIdx? (· == '>') with
      | some j => removeTagsF fuel (rest.drop (j + 1))
      | none => c :: rest
    else c :: removeTagsF fuel rest

/-- `html.replace(/<[^>]*>/g, '')`. -/
def removeTags (s : List Char) : List Char := removeTagsF s.length s

/-- Fuel-driven kernel of `replaceAll`. -/
def replaceAllF (pat repl : List Char) : Nat → List Char → List Char
  | 0, s => s
  | _ + 1, [] => []
  | fuel + 1, c :: rest =>
    if pat.isPrefixOf (c :: rest) && !pat.isEmpty then
      repl ++ replaceAllF pat repl fuel ((c :: rest).drop pat.length)
    else c :: replaceAllF pat repl fuel rest

/-- `s.replace(/pat/g, repl)` for a literal pattern: scan left to right,
replace each occurrence, continue after the replacement text. -/
def replaceAll (pat repl s : List Char) : List Char := replaceAllF pat repl s.length s

/-- `s.replace(/\s+/g, ' ')`: each maximal whitespace run becomes one space. -/
def collapseWs : List Char → List Char
  | [] => []
  | [c] => if isWs c then [' '] else [c]
  | c1 :: c2 :: rest =>
    if isWs c1 then
      if isWs c2 then collapseWs (c2 :: rest) else ' ' :: collapseWs (c2 :: rest)
    else c1 :: collapseWs (c2 :: rest)

/-- `RSSService.cleanHTML`: strip complete tags, undo the five listed entity
escapes in source order, collapse whitespace, trim.  An empty (falsy) input
returns the empty string. -/
def cleanHTML (html : List Char) : List Char :=
  if html.isEmpty then []
  else
    trim (collapseWs (replaceAll "&nbsp;".toList " ".toList
      (replaceAll "&gt;".toList ">".toList
        (replaceAll "&lt;".toList "<".toList
          (replaceAll "&amp;".toList "&".toList
            (replaceAll "&quot;".toList "\"".toList
              (removeTags html)))))))

/-- Case-insensitive character comparison (ASCII folding), modelling the
regex `i` flag on the ASCII tag patterns. -/
def ciEq (a b : Char) : Bool := a.toLower = b.toLower

/-- Case-insensitive "pattern starts here" test. -/
def ciStarts : List Char → List Char → Bool
  | [], _ => true
  | _ :: _, [] => false
  | a :: pa, b :: sb => ciEq a b && ciStarts pa sb

/-- Index of the first case-insensitive occurrence of `pat` in `s`. -/
def findCI (pat : List Char) : List Char → Option Nat
  | [] => if ciStarts pat [] then some 0 else none
  | c :: rest => if ciStarts pat (c :: rest) then some 0 else (findCI pat rest).map (· + 1)

/-- Lazy capture `(.*?)term` without the regex `s` flag: the capture runs to
the first occurrence of `term` and fails if a line terminator occurs first
(`.` cannot cross it, so no later occurrence is reachable either). -/
def lazyCap (term s : List Char) : Option (List Char) :=
  match findCI term s with
  | none => none
  | some k => if (s.take k).all isDotOk then some (s.take k) else none

/-- First match of `/openT(.*?)closeT/i` in `s`: at each position where the
open tag starts, attempt the lazy capture; on failure the scan advances one
character, exactly as the regex engine does. -/
def scanTagged (openT closeT : List Char) : List Char → Option (List Char)
  | [] => none
  | c :: rest =>
    if ciStarts openT (c :: rest) then
      match lazyCap closeT ((c :: rest).drop openT.length) with
      | some cap => some cap
      | none => scanTagged openT closeT rest
    else scanTagged openT closeT rest

/-- First match of the two-branch alternation
`/openT<!\[CDATA\[(.*?)\]\]>closeT|openT(.*?)closeT/i` used for titles and
descriptions: at each start position the CDATA branch is tried first, then
the plain branch, before the scan advances. -/
def scanCP (openT cdTerm plainTerm : List Char) : List Char → Option (List Char)
  | [] => none
  | c :: rest =>
    if ciStarts openT (c :: rest) then
      let after := (c :: rest).drop openT.length
      match (if ciStarts "<![CDATA[".toList after then lazyCap cdTerm (after.drop 9) else none) with
      | some cap => some cap
      | none =>
        match lazyCap plainTerm after with
        | some cap => some cap
        | none => scanCP openT cdTerm plainTerm rest
    else scanCP openT cdTerm plainTerm rest

/-- First match of `/<guid[^>]*>(.*?)<\/guid>/i`: after `<guid`, the greedy
`[^>]*>` runs to the first `>` (the class crosses newlines), then the lazy
capture to `</guid>`. -/
def scanGuid : List Char → Option (List Char)
  | [] => none
  | c :: rest =>
    if ciStarts "<guid".toList (c :: rest) then
      match ((c :: rest).drop 5).findIdx? (· == '>') with
      | some j =>
        match lazyCap "</guid>".toList (((c :: rest).drop 5).drop (j + 1)) with
        | some cap => some cap
        | none => scanGuid rest
      | none => scanGuid rest
    else scanGuid rest

/-- Fuel-driven kernel of `extractItems`, modelling the global dot-all lazy
regex `/<item>(.*?)<\/item>/gis`: repeatedly find the next `<item>`, capture
to the first following `</item>`, and continue after it. -/
def extractItemsF : Nat → List Char → List (List Char)
  | 0, _ => []
  | fuel + 1, s =>
    match findCI "<item>".toList s with
    | none => []
    | some i =>
      let after := s.drop (i + 6)
      match findCI "</item>".toList after with
      | none => []
      | some k => after.take k :: extractItemsF fuel (after.drop (k + 7))

/-- All `<item>` bodies of the document, in document order. -/
def extractItems (s : List Char) : List (List Char) := extractItemsF (s.length + 1) s

/-- The Extractor's output unit (`RSSItem`), with `[]` for absent optional
fields (the source always assigns every field before pushing). -/
structure RSSItem where
  title : List Char
  link : List Char
  description : List Char
  pubDate : List Char
  content : List Char
  guid : List Char
deriving DecidableEq, Repr

/-- The Extractor's output (`RSSFeed`). -/
structure RSSFeed where
  title : List Char
  items : List RSSItem
deriving DecidableEq, Repr

/-- Per-item part of `RSSService.parseRSS`: extract the raw fields of one
`<item>` body; an item whose raw title or trimmed link is empty (falsy) is
dropped, otherwise the cleansed item is emitted. -/
def parseItem (c : List Char) : Option RSSItem :=
  let itemTitle := (scanCP "<title>".toList "]]></title>".toList "</title>".toList c).getD []
  let link := trim ((scanTagged "<link>".toList "</link>".toList c).getD [])
  let description :=
    (scanCP "<description>".toList "]]></description>".toList "</description>".toList c).getD []
  let pubDate := (scanTagged "<pubDate>".toList "</pubDate>".toList c).getD []
  let guid := (scanGuid c).getD []
  if !itemTitle.isEmpty && !link.isEmpty then
    some { title := cleanHTML itemTitle, link := link, description := cleanHTML description,
           pubDate := pubDate, guid := guid, content := cleanHTML description }
  else none

/-- `RSSService.parseRSS`: feed title from the first title match anywhere in
the document (placeholder `Unknown Feed` when there is none; JavaScript's
`m[1] || m[2]` collapse of an empty capture is modelled as the captured
string), and the ordered, per-item-parsed item list. -/
def parseRSS (xmlText : List Char) : RSSFeed :=
  let title :=
    (scanCP "<title>".toList "]]></title>".toList "</title>".toList xmlText).getD
      "Unknown Feed".toList
  { title := title, items := (extractItems xmlText).filterMap parseItem }

/-- Keyword test of the AI/ML branch of `RSSService.categorizeArticle`. -/
def aiCond (text : List Char) : Bool :=
  includes text "ai".toList || includes text "artificial intelligence".toList ||
  includes text "machine learning".toList || includes text "ml".toList ||
  includes text "gpt".toList || includes text "neural".toList ||
  includes text "openai".toList

/-- Keyword test of the Startups branch. -/
def startupCond (text : List Char) : Bool :=
  includes text "startup".toList || includes text "funding".toList ||
  includes text "venture".toList || includes text "investment".toList ||
  includes text "y combinator".toList

/-- Keyword test of the Cybersecurity branch. -/
def securityCond (text : List Char) : Bool :=
  includes text "security".toList || includes text "cyber".toList ||
  includes text "hack".toList || includes text "vulnerability".toList ||
  includes text "breach".toList || includes text "malware".toList

/-- Keyword test of the Mobile branch. -/
def mobileCond (text : List Char) : Bool :=
  includes text "mobile".toList || includes text "iphone".toList ||
  includes text "android".toList || includes text "app".toList ||
  includes text "smartphone".toList

/-- Keyword test of the Web3 branch. -/
def web3Cond (text : List Char) : Bool :=
  includes text "web3".toList || includes text "blockchain".toList ||
  includes text "crypto".toList || includes text "bitcoin".toList ||
  includes text "ethereum".toList || includes text "nft".toList

/-- `RSSService.categorizeArticle`: lower-case `title + ' ' + content`, then
first-match-wins over the five keyword branches, else `others`. -/
def categorizeArticle (title content : List Char) : List Char :=
  let text := toLowerList (title ++ ' ' :: content)
  if aiCond text then "ai_ml".toList
  else if startupCond text then "startups".toList
  else if securityCond text then "cybersecurity".toList
  else if mobileCond text then "mobile".toList
  else if web3Cond text then "web3".toList
  else "others".toList

/-- `RSSService.createSnippet`: cleanse, and truncate to 200 characters with
a trailing ellipsis when longer. -/
def createSnippet (content : List Char) : List Char :=
  if content.isEmpty then []
  else
    let cleanContent := cleanHTML content
    if 200 < cleanContent.length then trim (cleanContent.take 200) ++ "...".toList
    else cleanContent

/-- Fuel-driven kernel of SQL `LIKE` matching: `%` matches any run of
characters, `_` one character, others themselves; the pattern must cover the
whole string.  (The PostgreSQL escape character is not modelled; the
patterns built by the pipeline are `'%' ++ text ++ '%'`.)  Fuel bounds
`pattern.length + string.length`. -/
def likeMatchF : Nat → List Char → List Char → Bool
  | 0, _, _ => false
  | _ + 1, [], s => s.isEmpty
  | fuel + 1, c :: p, s =>
    if c = '%' then
      likeMatchF fuel p s ||
        (match s with
         | [] => false
         | _ :: s2 => likeMatchF fuel (c :: p) s2)
    else
      match s with
      | [] => false
      | c2 :: s2 => (c = '_' || c = c2) && likeMatchF fuel p s2

/-- `s LIKE pattern`. -/
def likeMatch (p s : List Char) : Bool := likeMatchF (p.length + s.length + 1) p s

/-- `col LIKE '%' || needle || '%'` as produced by the search filter of
`DatabaseStorage.getArticles`. -/
def likeContains (needle hay : List Char) : Bool :=
  likeMatch ('%' :: (needle ++ ['%'])) hay

/-- Stable insertion into a list sorted by the precedence test `pre`
(`pre y x` means `y` stays in front of `x`). -/
def insertBy (pre : α → α → Bool) (x : α) : List α → List α
  | [] => [x]
  | y :: ys => if pre y x then y :: insertBy pre x ys else x :: y :: ys

/-- Stable insertion sort by the precedence test `pre`. -/
def sortBy (pre : α → α → Bool) : List α → List α
  | [] => []
  | x :: xs => insertBy pre x (sortBy pre xs)

/-- Precedence for `ORDER BY published_at DESC` in PostgreSQL: `NULL`
(invalid/absent date) sorts first in descending order. -/
def pubBefore : Option Int → Option Int → Bool
  | none, _ => true
  | some _, none => false
  | some y, some x => x ≤ y

/-- One stored article row, with the `InsertArticle` fields the pipeline
writes (`publishedAt` is `none` for an Invalid Date value). -/
structure ArticleRow where
  title : List Char
  url : List Char
  content : List Char
  snippet : List Char
  sourceId : List Char
  publishedAt : Option Int
  category : List Char
  fetchedAt : Int
deriving DecidableEq, Repr

/-- One stored source row (the fields the pipeline reads and writes). -/
structure SourceRow where
  id : List Char
  name : List Char
  url : List Char
  rssUrl : Option (List Char)
  isActive : Bool
  lastFetchAt : Option Int
deriving DecidableEq, Repr

/-- The record store visible to the pipeline. -/
structure Storage where
  articles : List ArticleRow
  sources : List SourceRow
deriving DecidableEq, Repr

/-- `DatabaseStorage.getArticles` restricted to the call shape used by the
coordinator (`search` and `limit` only): filter by
`title LIKE '%s%' OR content LIKE '%s%'`, order by published timestamp
descending, apply the limit (page 1, offset 0). -/
def getArticles (search : List Char) (lim : Nat) (st : Storage) : List ArticleRow :=
  (sortBy (fun a b => pubBefore a.publishedAt b.publishedAt)
    (st.articles.filter (fun a => likeContains search a.title || likeContains search a.content))).take
    lim

/-- `DatabaseStorage.createArticle`: the insert respects the schema's unique
constraint on `url`; a violating insert is rejected by the store. -/
def createArticle (row : ArticleRow) (st : Storage) : Option Storage :=
  if st.articles.any (fun a => a.url = row.url) then none
  else some { st with articles := st.articles ++ [row] }

/-- `DatabaseStorage.updateSourceLastFetch`: set the matching source's
last-fetch timestamp to the current time. -/
def updateSourceLastFetch (id : List Char) (now : Int) (st : Storage) : Storage :=
  { st with
    sources := st.sources.map (fun s => if s.id = id then { s with lastFetchAt := some now } else s) }

/-- The `InsertArticle` row the coordinator builds for one item: published
timestamp from the item's date string via `parseDate` (`none` models an
Invalid Date; current time when the date string is empty), category and
snippet from title/description, fetch timestamp = current time. -/
def buildRow (parseDate : List Char → Option Int) (now : Int) (sourceId : List Char)
    (item : RSSItem) : ArticleRow :=
  { title := item.title
    url := item.link
    content := if !item.content.isEmpty then item.content else item.description
    snippet := createSnippet item.description
    sourceId := sourceId
    publishedAt := if item.pubDate.isEmpty then some now else parseDate item.pubDate
    category := categorizeArticle item.title item.description
    fetchedAt := now }

/-- Body of the per-item loop of `RSSService.fetchAndStoreArticles`: skip
when the search finds an existing article; otherwise insert the built row;
a rejected insert is caught and does not bump the counter. -/
def ingestItem (parseDate : List Char → Option Int) (now : Int) (sourceId : List Char)
    (acc : Nat × Storage) (item : RSSItem) : Nat × Storage :=
  let (n, st) := acc
  if !(getArticles item.title 1 st).isEmpty then (n, st)
  else
    match createArticle (buildRow parseDate now sourceId item) st with
    | some st2 => (n + 1, st2)
    | none => (n, st)

/-- `RSSService.fetchAndStoreArticles` after a successful fetch: process
every item, then unconditionally update the source's last-fetch timestamp;
returns the count of newly created articles. -/
def fetchAndStoreArticles (parseDate : List Char → Option Int) (now : Int)
    (sourceId : List Char) (feed : RSSFeed) (st : Storage) : Nat × Storage :=
  let r := feed.items.foldl (ingestItem parseDate now sourceId) (0, st)
  (r.1, updateSourceLastFetch sourceId now r.2)

/-- `RSSService.fetchAndStoreArticles` including its outer catch: a failed
fetch (`none`) returns zero and leaves the store untouched (the last-fetch
update is skipped by the thrown error). -/
def fetchAndStore (parseDate : List Char → Option Int) (now : Int) (sourceId : List Char)
    (fetched : Option RSSFeed) (st : Storage) : Nat × Storage :=
  match fetched with
  | none => (0, st)
  | some feed => fetchAndStoreArticles parseDate now sourceId feed st

/-- `DatabaseStorage.getSources`: active sources only. -/
def getSources (st : Storage) : List SourceRow := st.sources.filter (fun s => s.isActive)

/-- Body of the per-source loop of `RSSService.fetchAllSources`: skip
sources without a feed URL or inactive ones; otherwise fetch and store
(`fetchOf` gives the fetch outcome per feed URL; the per-source catch means
a failure never aborts the loop). -/
def runSource (parseDate : List Char → Option Int) (now : Int)
    (fetchOf : List Char → Option RSSFeed) (st : Storage) (src : SourceRow) : Storage :=
  if src.rssUrl.getD [] = [] || !src.isActive then st
  else (fetchAndStore parseDate now src.id (fetchOf (src.rssUrl.getD [])) st).2

/-- The per-source loop of `RSSService.fetchAllSources` over an explicit
source list. -/
def fetchAllSourcesList (parseDate : List Char → Option Int) (now : Int)
    (fetchOf : List Char → Option RSSFeed) (srcs : List SourceRow) (st : Storage) : Storage :=
  srcs.foldl (runSource parseDate now fetchOf) st

/-- `RSSService.fetchAllSources`: iterate over the active sources of the
store. -/
def fetchAllSources (parseDate : List Char → Option Int) (now : Int)
    (fetchOf : List Char → Option RSSFeed) (st : Storage) : Storage :=
  fetchAllSourcesList parseDate now fetchOf (getSources st) st

/-- ASCII uppercase letter test (`[A-Z]` of the company-name pattern). -/
def isUpperA (c : Char) : Bool := 'A' ≤ c && c ≤ 'Z'

/-- ASCII lowercase letter test (`[a-z]`). -/
def isLowerA (c : Char) : Bool := 'a' ≤ c && c ≤ 'z'

/-- Regex word character (`\w`): ASCII letter, digit or underscore. -/
def isWordChar (c : Char) : Bool :=
  isUpperA c || isLowerA c || ('0' ≤ c && c ≤ '9') || c = '_'

/-- Greedy repetition of `(?:\s+[A-Z][a-z]+)*` in the company-name pattern:
returns the consumed chunks (each `whitespace ++ capital ++ lowercases`) and
the remaining text. -/
def extGroups : Nat → List Char → (List (List Char) × List Char)
  | 0, s => ([], s)
  | fuel + 1, s =>
    let ws := s.takeWhile isWs
    if ws.isEmpty then ([], s)
    else
      match s.drop ws.length with
      | [] => ([], s)
      | u :: r2 =>
        if isUpperA u then
          let lows := r2.takeWhile isLowerA
          if lows.isEmpty then ([], s)
          else
            let more := extGroups fuel (r2.drop lows.length)
            ((ws ++ u :: lows) :: more.1, more.2)
        else ([], s)

/-- Fuel-driven scan of `/\b[A-Z][a-z]+(?:\s+[A-Z][a-z]+)*\b/g` (the
company-name heuristic of `NewsService.extractKeywords`): at a capital with
a word boundary before it, match greedily; when the trailing boundary fails
the engine can only backtrack by dropping the last `\s+[A-Z][a-z]+` group
(shrinking `[a-z]+` still leaves a word character next), and with no group
to drop the match at this start fails and the scan advances one
character. -/
def companyScanF : Nat → Option Char → List Char → List (List Char)
  | 0, _, _ => []
  | _ + 1, _, [] => []
  | fuel + 1, prev, c :: rest =>
    if isUpperA c && (match prev with | none => true | some pc => !isWordChar pc) then
      let lows := rest.takeWhile isLowerA
      if lows.isEmpty then companyScanF fuel (some c) rest
      else
        let r2 := rest.drop lows.length
        let g := extGroups r2.length r2
        let boundaryOk := match g.2 with | [] => true | d :: _ => !isWordChar d
        if boundaryOk then
          let m := c :: lows ++ g.1.flatten
          m :: companyScanF fuel (some (m.getLast?.getD c)) g.2
        else if g.1.isEmpty then companyScanF fuel (some c) rest
        else
          let m := c :: lows ++ g.1.dropLast.flatten
          let rem := (g.1.getLast?.getD []) ++ g.2
          m :: companyScanF fuel (some (m.getLast?.getD c)) rem
    else companyScanF fuel (some c) rest

/-- `text.match(/\b[A-Z][a-z]+(?:\s+[A-Z][a-z]+)*\b/g) || []`. -/
def companyMatches (text : List Char) : List (List Char) :=
  companyScanF (text.length + 1) none text

/-- The curated technology-term list of `NewsService.extractKeywords`, in
source order. -/
def techKeywords : List (List Char) :=
  ["ai", "artificial intelligence", "machine learning", "ml", "deep learning",
   "openai", "gpt", "chatgpt", "claude", "llm", "neural network",
   "blockchain", "crypto", "bitcoin", "ethereum", "web3", "nft",
   "startup", "funding", "venture capital", "ipo", "acquisition",
   "cybersecurity", "security", "hack", "breach", "vulnerability",
   "mobile", "iphone", "android", "app", "ios",
   "cloud", "aws", "azure", "google cloud", "saas",
   "apple", "google", "microsoft", "meta", "tesla", "nvidia",
   "quantum", "robotics", "automation", "iot", "ar", "vr",
   "privacy", "data", "algorithm", "software", "hardware",
   "api", "opensource", "developer", "programming"].map String.toList

/-- Deduplication preserving first occurrences (`[...new Set(keywords)]`). -/
def firstDedupAux [DecidableEq α] (seen : List α) : List α → List α
  | [] => []
  | a :: l => if a ∈ seen then firstDedupAux seen l else a :: firstDedupAux (a :: seen) l

/-- Deduplication preserving first occurrences. -/
def firstDedup [DecidableEq α] (l : List α) : List α := firstDedupAux [] l

/-- `NewsService.extractKeywords`: fixed-vocabulary substring matches in
list order, then lowercased company-pattern matches, deduplicated keeping
first occurrences.  (The `words` local of the source is unused.) -/
def extractKeywords (text : List Char) : List (List Char) :=
  let fromVocab := techKeywords.filter (fun keyword => includes text keyword)
  let companies := (companyMatches text).map toLowerList
  firstDedup (fromVocab ++ companies)

/-- An article as read back from the store by `NewsService` (nullable
columns are `Option`). -/
structure Art where
  id : List Char
  title : List Char
  snippet : Option (List Char)
  content : Option (List Char)
  category : Option (List Char)
deriving DecidableEq, Repr

/-- The lowercased `title + ' ' + (snippet || '')` fed to keyword
extraction by `NewsService.updateTrendingTopics`. -/
def trendText (a : Art) : List Char := toLowerList (a.title ++ ' ' :: a.snippet.getD [])

/-- Increment the count of `k` in an insertion-ordered association list
(`map.set(k, (map.get(k) || 0) + 1)` on a JavaScript `Map`). -/
def bump [DecidableEq K] (k : K) : List (K × Nat) → List (K × Nat)
  | [] => [(k, 1)]
  | (k2, n) :: rest => if k2 = k then (k2, n + 1) :: rest else (k2, n) :: bump k rest

/-- Increment every keyword of `ks` once. -/
def bumpMany [DecidableEq K] (ks : List K) (m : List (K × Nat)) : List (K × Nat) :=
  ks.foldl (fun m k => bump k m) m

/-- `if (!categoryTopics.has(key)) categoryTopics.set(key, new Map())`:
insertion-ordered map of maps. -/
def ensureKey [DecidableEq K] (k : K) (m : List (K × List (K2 × Nat))) :
    List (K × List (K2 × Nat)) :=
  if m.any (fun e => e.1 = k) then m else m ++ [(k, [])]

/-- Apply `f` to the value stored at key `k` (key order preserved). -/
def updateKey [DecidableEq K] (k : K) (f : V → V) (m : List (K × V)) : List (K × V) :=
  m.map (fun e => if e.1 = k then (e.1, f e.2) else e)

/-- The keyword-counting loop of `NewsService.updateTrendingTopics`: global
counts and per-category counts (category key `article.category ?? ''`),
both in first-insertion order. -/
def trendCounts (arts : List Art) :
    List (List Char × Nat) × List (List Char × List (List Char × Nat)) :=
  arts.foldl
    (fun acc a =>
      let keywords := extractKeywords (trendText a)
      let categoryKey := a.category.getD []
      let cats := ensureKey categoryKey acc.2
      (bumpMany keywords acc.1, updateKey categoryKey (bumpMany keywords) cats))
    ([], [])

/-- A persisted `TrendingRecord` (`category` is `none` for a global
record). -/
structure TrendingRecord where
  date : Int
  topic : List Char
  count : Nat
  category : Option (List Char)
  growthRate : Int
deriving DecidableEq, Repr

/-- `NewsService.calculateGrowthRate`: `Math.min(100, (count - 1) * 10)`. -/
def calculateGrowthRate (_topic : List Char) (currentCount : Nat) : Int :=
  min 100 (((currentCount : Int) - 1) * 10)

/-- Precedence test of the stable JavaScript sort `(a, b) => b - a` on
count entries: an element stays in front when its count is strictly
larger. -/
def byCountDesc (y x : List Char × Nat) : Bool := x.2 < y.2

/-- `NewsService.updateTrendingTopics` as the list of records it persists
for one run over the sampled window: top-20 global keywords with count at
least 3, then per category (in first-appearance order) the top-10 keywords
with count at least 2, tagged with the category. -/
def updateTrendingTopics (today : Int) (recentArticles : List Art) : List TrendingRecord :=
  let counts := trendCounts recentArticles
  let sortedKeywords := (sortBy byCountDesc counts.1).take 20
  let globalRecs := (sortedKeywords.filter (fun e => 3 ≤ e.2)).map
    (fun e => { date := today, topic := e.1, count := e.2, category := none,
                growthRate := calculateGrowthRate e.1 e.2 : TrendingRecord })
  let catRecs := counts.2.flatMap (fun ct =>
    (((sortBy byCountDesc ct.2).take 10).filter (fun e => 2 ≤ e.2)).map
      (fun e => { date := today, topic := e.1, count := e.2, category := some ct.1,
                  growthRate := calculateGrowthRate e.1 e.2 : TrendingRecord }))
  globalRecs ++ catRecs

/-- `title.split(/\s+/)`: pieces between maximal whitespace runs, keeping
the empty leading/trailing pieces JavaScript produces. -/
def splitWsGo : Bool → List Char → List Char → List (List Char)
  | _, [], acc => [acc.reverse]
  | inSep, c :: rest, acc =>
    if isWs c then
      if inSep then splitWsGo true rest acc
      else acc.reverse :: splitWsGo true rest []
    else splitWsGo false rest (c :: acc)

/-- `title.split(/\s+/)`. -/
def splitWs (s : List Char) : List (List Char) := splitWsGo false s []

/-- The set of distinct lowercased title words
(`new Set(title.toLowerCase().split(/\s+/))`). -/
def titleWords (title : List Char) : Finset (List Char) :=
  (splitWs (toLowerList title)).toFinset

/-- `NewsService.calculateSimpleSimilarity`: Jaccard overlap of the two
title word sets. -/
def calculateSimpleSimilarity (article1 article2 : Art) : ℚ :=
  let words1 := titleWords article1.title
  let words2 := titleWords article2.title
  ((words1 ∩ words2).card : ℚ) / ((words1 ∪ words2).card : ℚ)

/-- A persisted `RelatedArticle` edge. -/
structure RelatedEdge where
  articleId : List Char
  relatedArticleId : List Char
  similarityScore : ℚ
deriving DecidableEq, Repr

/-- `NewsService.generateRelatedArticles` as the list of edges it persists:
for each article with content whose embedding request yields a non-empty
vector, consider at most 5 same-category other articles and keep those
whose similarity strictly exceeds 0.3.  (The embedding string stored on the
article is a store write that does not influence edge creation and is not
part of the edge list.) -/
def generateRelatedArticles (embed : List Char → List ℚ) (recentArticles : List Art) :
    List RelatedEdge :=
  recentArticles.flatMap (fun article =>
    if (article.content.getD []).isEmpty then []
    else
      let body :=
        if !(article.content.getD []).isEmpty then article.content.getD []
        else article.snippet.getD []
      let embedding := embed (article.title ++ '\n' :: body)
      if embedding.isEmpty then []
      else
        let potentialRelated := recentArticles.filter
          (fun other => decide (other.id ≠ article.id ∧ other.category = article.category))
        (potentialRelated.take 5).flatMap (fun related =>
          let similarityScore := calculateSimpleSimilarity article related
          if (3 : ℚ) / 10 < similarityScore then
            [{ articleId := article.id, relatedArticleId := related.id,
               similarityScore := similarityScore }]
          else []))

/-- The sentiment JSON the model service returns (absent fields are
`none`). -/
structure SentimentJSON where
  sentiment : Option (List Char)
  score : Option ℚ
  confidence : Option ℚ
deriving DecidableEq, Repr

/-- The result shape of `AIService.analyzeSentiment`. -/
structure SentimentResult where
  sentiment : List Char
  score : ℚ
  confidence : ℚ
deriving DecidableEq, Repr

/-- `AIService.analyzeSentiment`: neutral default without an API key or
when the service call fails (`none`); otherwise the parsed fields with
JavaScript falsy defaulting (`score || 0`, `confidence || 0.5`,
`sentiment || 'neutral'`) and clamping into the documented ranges. -/
def analyzeSentiment (hasApiKey : Bool) (service : Option SentimentJSON) : SentimentResult :=
  if !hasApiKey then { sentiment := "neutral".toList, score := 0, confidence := 0 }
  else
    match service with
    | none => { sentiment := "neutral".toList, score := 0, confidence := 0 }
    | some result =>
      { sentiment :=
          if (result.sentiment.getD []).isEmpty then "neutral".toList
          else result.sentiment.getD []
        score := max (-1) (min 1 (result.score.getD 0))
        confidence :=
          max 0 (min 1 (if result.confidence.getD 0 = 0 then 1 / 2 else result.confidence.getD 0)) }

/-! General lemmas about the embedded helpers. -/

theorem insertBy_perm (pre : α → α → Bool) (x : α) (l : List α) :
    List.Perm (insertBy pre x l) (x :: l) := by
  induction l with
  | nil => simp [insertBy]
  | cons y ys ih =>
    simp only [insertBy]
    split
    · exact (ih.cons y).trans (List.Perm.swap x y ys)
    · exact List.Perm.refl _

theorem sortBy_perm (pre : α → α → Bool) (l : List α) : List.Perm (sortBy pre l) l := by
  induction l with
  | nil => exact List.Perm.refl _
  | cons x xs ih => exact (insertBy_perm pre x (sortBy pre xs)).trans (ih.cons x)

theorem likeMatchF_selfAux :
    ∀ (s : List Char) (f : Nat), 2 * s.length + 2 ≤ f →
      likeMatchF f (s ++ ['%']) s = true := by
  intro s
  induction s with
  | nil =>
    intro f hf
    match f, hf with
    | g + 2, _ => simp [likeMatchF]
  | cons c s' ih =>
    intro f hf
    simp only [List.length_cons] at hf
    match f, hf with
    | g + 2, hf2 =>
      have ihg : likeMatchF g (s' ++ ['%']) s' = true := ih g (by omega)
      have ihg1 : likeMatchF (g + 1) (s' ++ ['%']) s' = true := ih (g + 1) (by omega)
      by_cases hc : c = '%'
      · subst hc
        simp only [List.cons_append, likeMatchF]
        simp [ihg]
      · simp only [List.cons_append, likeMatchF]
        simp [hc, ihg1]

theorem likeContains_self (s : List Char) : likeContains s s = true := by
  have hfuel : ('%' :: (s ++ ['%'])).length + s.length + 1 = 2 * s.length + 2 + 1 := by
    simp [List.length_append]
    omega
  show likeMatchF (('%' :: (s ++ ['%'])).length + s.length + 1) ('%' :: (s ++ ['%'])) s = true
  rw [hfuel]
  simp only [likeMatchF]
  simp [likeMatchF_selfAux s (2 * s.length + 2) (by omega)]

theorem splitWsGo_ne_nil : ∀ (b : Bool) (s acc : List Char), splitWsGo b s acc ≠ [] := by
  intro b s
  induction s generalizing b with
  | nil => intro acc; simp [splitWsGo]
  | cons c rest ih =>
    intro acc
    simp only [splitWsGo]
    split
    · split
      · exact ih true acc
      · exact List.cons_ne_nil _ _
    · exact ih false (c :: acc)

theorem titleWords_nonempty (t : List Char) : (titleWords t).Nonempty := by
  obtain ⟨x, xs, hx⟩ := List.exists_cons_of_ne_nil (splitWsGo_ne_nil false (toLowerList t) [])
  exact ⟨x, by simp [titleWords, splitWs, hx]⟩

/-- C2: the classifier is a total function into the fixed category
enumeration, evaluated first-match-wins over the case-insensitively matched
keyword sets in the order AI/ML, Startups, Cybersecurity, Mobile, Web3 with
catch-all `others`; the title "OpenAI releases new GPT model" classifies as
`ai_ml`, and any input in which no recognized keyword occurs classifies as
`others`. -/
theorem c2_classifier_total_first_match_wins :
    (∀ title content : List Char,
      categorizeArticle title content ∈
        ["ai_ml".toList, "startups".toList, "cybersecurity".toList,
         "mobile".toList, "web3".toList, "others".toList]) ∧
    categorizeArticle "OpenAI releases new GPT model".toList [] = "ai_ml".toList ∧
    (∀ title content : List Char,
      aiCond (toLowerList (title ++ ' ' :: content)) = false →
      startupCond (toLowerList (title ++ ' ' :: content)) = false →
      securityCond (toLowerList (title ++ ' ' :: content)) = false →
      mobileCond (toLowerList (title ++ ' ' :: content)) = false →
      web3Cond (toLowerList (title ++ ' ' :: content)) = false →
      categorizeArticle title content = "others".toList) ∧
    (∀ title content : List Char,
      (aiCond (toLowerList (title ++ ' ' :: content)) = true →
        categorizeArticle title content = "ai_ml".toList) ∧
      (aiCond (toLowerList (title ++ ' ' :: content)) = false →
        startupCond (toLowerList (title ++ ' ' :: content)) = true →
        categorizeArticle title content = "startups".toList) ∧
      (aiCond (toLowerList (title ++ ' ' :: content)) = false →
        startupCond (toLowerList (title ++ ' ' :: content)) = false →
        securityCond (toLowerList (title ++ ' ' :: content)) = true →
        categorizeArticle title content = "cybersecurity".toList) ∧
      (aiCond (toLowerList (title ++ ' ' :: content)) = false →
        startupCond (toLowerList (title ++ ' ' :: content)) = false →
        securityCond (toLowerList (title ++ ' ' :: content)) = false →
        mobileCond (toLowerList (title ++ ' ' :: content)) = true →
        categorizeArticle title content = "mobile".toList) ∧
      (aiCond (toLowerList (title ++ ' ' :: content)) = false →
        startupCond (toLowerList (title ++ ' ' :: content)) = false →
        securityCond (toLowerList (title ++ ' ' :: content)) = false →
        mobileCond (toLowerList (title ++ ' ' :: content)) = false →
        web3Cond (toLowerList (title ++ ' ' :: content)) = true →
        categorizeArticle title content = "web3".toList)) := by
  refine ⟨?_, by decide, ?_, ?_⟩
  · intro title content
    simp only [categorizeArticle]
    split_ifs <;> simp
  · intro title content h1 h2 h3 h4 h5
    simp [categorizeArticle, h1, h2, h3, h4, h5]
  · intro title content
    refine ⟨fun h1 => ?_, fun h1 h2 => ?_, fun h1 h2 h3 => ?_,
      fun h1 h2 h3 h4 => ?_, fun h1 h2 h3 h4 h5 => ?_⟩ <;>
      simp_all [categorizeArticle]

/-- C2 witness: the theorem applied at the example title and at an input
with no recognized keyword. -/
theorem c2_classifier_witness :
    categorizeArticle "OpenAI releases new GPT model".toList [] = "ai_ml".toList ∧
    categorizeArticle "zzz".toList [] = "others".toList := by
  refine ⟨c2_classifier_total_first_match_wins.2.1, ?_⟩
  exact c2_classifier_total_first_match_wins.2.2.1 "zzz".toList []
    (by decide) (by decide) (by decide) (by decide) (by decide)

/-- C9: `analyzeSentiment` always returns a result; without an API key or
when the service call fails it returns the neutral default, and every
returned score lies in the closed interval from -1 to 1 while every
returned confidence lies in the closed interval from 0 to 1. -/
theorem c9_analyzeSentiment_total_neutral_bounded :
    ∀ (hasApiKey : Bool) (service : Option SentimentJSON),
      (-1 ≤ (analyzeSentiment hasApiKey service).score ∧
        (analyzeSentiment hasApiKey service).score ≤ 1 ∧
        0 ≤ (analyzeSentiment hasApiKey service).confidence ∧
        (analyzeSentiment hasApiKey service).confidence ≤ 1) ∧
      (hasApiKey = false →
        analyzeSentiment hasApiKey service =
          { sentiment := "neutral".toList, score := 0, confidence := 0 }) ∧
      (service = none →
        analyzeSentiment hasApiKey service =
          { sentiment := "neutral".toList, score := 0, confidence := 0 }) := by
  intro hasApiKey service
  refine ⟨?_, ?_, ?_⟩
  · cases hasApiKey with
    | false => cases service <;> norm_num [analyzeSentiment]
    | true =>
      cases service with
      | none => norm_num [analyzeSentiment]
      | some result =>
        simp only [analyzeSentiment, Bool.not_true, Bool.false_eq_true, if_false]
        exact ⟨le_max_left _ _, max_le (by norm_num) (min_le_left _ _),
          le_max_left _ _, max_le (by norm_num) (min_le_left _ _)⟩
  · intro h
    subst h
    cases service <;> rfl
  · intro h
    subst h
    cases hasApiKey <;> rfl

/-- C9 witness: the theorem applied at the unavailable-service input. -/
theorem c9_analyzeSentiment_witness :
    analyzeSentiment false none =
      { sentiment := "neutral".toList, score := 0, confidence := 0 } :=
  (c9_analyzeSentiment_total_neutral_bounded false none).2.1 rfl

theorem removeTagsF_id_of_no_lt :
    ∀ (fuel : Nat) (s : List Char), (∀ c ∈ s, c ≠ '<') → removeTagsF fuel s = s := by
  intro fuel
  induction fuel with
  | zero => intro s _; rfl
  | succ f ih =>
    intro s hs
    cases s with
    | nil => rfl
    | cons c rest =>
      have hc : c ≠ '<' := hs c (List.mem_cons_self c rest)
      simp only [removeTagsF, if_neg hc]
      rw [ih rest (fun d hd => hs d (List.mem_cons_of_mem c hd))]

theorem replaceAllF_id_of_no_head :
    ∀ (p0 : Char) (pr repl : List Char) (fuel : Nat) (s : List Char),
      (∀ c ∈ s, c ≠ p0) → replaceAllF (p0 :: pr) repl fuel s = s := by
  intro p0 pr repl fuel
  induction fuel with
  | zero => intro s _; rfl
  | succ f ih =>
    intro s hs
    cases s with
    | nil => rfl
    | cons c rest =>
      have hc : c ≠ p0 := hs c (List.mem_cons_self c rest)
      have hns : ((p0 :: pr).isPrefixOf (c :: rest) && !(p0 :: pr).isEmpty) = false := by
        simp [List.isPrefixOf, Ne.symm hc]
      simp only [replaceAllF, hns, Bool.false_eq_true, if_false]
      rw [ih rest (fun d hd => hs d (List.mem_cons_of_mem c hd))]

theorem collapseWs_mem :
    ∀ (s : List Char) (c : Char), c ∈ collapseWs s → c ∈ s ∨ c = ' ' := by
  intro s
  induction s with
  | nil => intro c hc; simp [collapseWs] at hc
  | cons c1 rest ih =>
    intro c hc
    cases rest with
    | nil =>
      simp only [collapseWs] at hc
      split at hc <;> simp at hc <;> simp [hc]
    | cons c2 rest2 =>
      simp only [collapseWs] at hc
      split at hc
      · split at hc
        · rcases ih c hc with h | h
          · exact Or.inl (List.mem_cons_of_mem c1 h)
          · exact Or.inr h
        · rcases List.mem_cons.mp hc with h | h
          · exact Or.inr h
          · rcases ih c h with h2 | h2
            · exact Or.inl (List.mem_cons_of_mem c1 h2)
            · exact Or.inr h2
      · rcases List.mem_cons.mp hc with h | h
        · exact Or.inl (h ▸ List.mem_cons_self c1 _)
        · rcases ih c h with h2 | h2
          · exact Or.inl (List.mem_cons_of_mem c1 h2)
          · exact Or.inr h2

theorem trim_subset (s : List Char) (c : Char) (hc : c ∈ trim s) : c ∈ s := by
  simp only [trim, List.mem_reverse] at hc
  have h1 := (List.dropWhile_sublist (l := (s.dropWhile isWs).reverse) isWs).subset hc
  simp only [List.mem_reverse] at h1
  exact (List.dropWhile_sublist isWs).subset h1

theorem cleanHTML_no_angle (s : List Char) (h : ∀ c ∈ s, c ≠ '<' ∧ c ≠ '>' ∧ c ≠ '&') :
    ∀ c ∈ cleanHTML s, c ≠ '<' ∧ c ≠ '>' := by
  intro c hc
  by_cases hemp : s.isEmpty
  · simp [cleanHTML, hemp] at hc
  · have hlt : ∀ d ∈ s, d ≠ '<' := fun d hd => (h d hd).1
    have hamp : ∀ d ∈ s, d ≠ '&' := fun d hd => (h d hd).2.2
    simp only [cleanHTML, hemp, Bool.false_eq_true, if_false] at hc
    have e0 : removeTags s = s := by
      rw [removeTags]
      exact removeTagsF_id_of_no_lt _ s hlt
    have eAmp : ∀ pr repl : List Char, replaceAll ('&' :: pr) repl s = s := by
      intro pr repl
      rw [replaceAll]
      exact replaceAllF_id_of_no_head '&' pr repl s.length s hamp
    rw [e0, show ("&quot;".toList) = '&' :: "quot;".toList from rfl, eAmp,
      show ("&amp;".toList) = '&' :: "amp;".toList from rfl, eAmp,
      show ("&lt;".toList) = '&' :: "lt;".toList from rfl, eAmp,
      show ("&gt;".toList) = '&' :: "gt;".toList from rfl, eAmp,
      show ("&nbsp;".toList) = '&' :: "nbsp;".toList from rfl, eAmp] at hc
    have hmem := trim_subset _ c hc
    rcases collapseWs_mem s c hmem with h2 | h2
    · exact ⟨(h c h2).1, (h c h2).2.1⟩
    · subst h2
      exact ⟨by decide, by decide⟩

theorem parseItem_fields (c : List Char) (it : RSSItem) (h : parseItem c = some it) :
    (∃ raw, it.title = cleanHTML raw) ∧
      (∃ raw, it.description = cleanHTML raw ∧ it.content = cleanHTML raw) := by
  simp only [parseItem] at h
  split at h
  · cases h
    exact ⟨⟨_, rfl⟩, ⟨_, rfl, rfl⟩⟩
  · cases h

/-- C3 (amended): every emitted item's title, description and content are
the cleansing of some raw capture, and cleansing a text containing no
angle-bracket and no ampersand characters yields a text with no angle
brackets.  The original claim's unconditional "no residual angle brackets"
fails, because the entity unescaping of the source reintroduces literal
angle brackets from escapes and an unmatched raw bracket is not a complete
tag (see the counterexample). -/
theorem c3_cleansed_fields_amended :
    (∀ xml : List Char, ∀ it ∈ (parseRSS xml).items,
      (∃ raw, it.title = cleanHTML raw) ∧
        (∃ raw, it.description = cleanHTML raw ∧ it.content = cleanHTML raw)) ∧
    (∀ s : List Char, (∀ c ∈ s, c ≠ '<' ∧ c ≠ '>' ∧ c ≠ '&') →
      ∀ c ∈ cleanHTML s, c ≠ '<' ∧ c ≠ '>') := by
  constructor
  · intro xml it hit
    simp only [parseRSS, List.mem_filterMap] at hit
    obtain ⟨blk, _, hp⟩ := hit
    exact parseItem_fields blk it hp
  · exact cleanHTML_no_angle

/-- C3 counterexample: an item whose title carries entity-escaped angle
brackets is emitted with literal `<` and `>` in its cleansed title, so the
claim's "no residual angle-bracket characters" is false on the code. -/
theorem c3_counterexample :
    ((parseRSS "<item><title>a &lt;b&gt;</title><link>u</link></item>".toList).items.all
        fun it => it.title.all fun c => !(c = '<' || c = '>')) = false := by
  decide

/-- C3 witness: the amended theorem applied at a concrete clean text. -/
theorem c3_cleansed_fields_witness : '<' ∉ cleanHTML "ab cd".toList :=
  fun hmem => (c3_cleansed_fields_amended.2 "ab cd".toList (by decide) '<' hmem).1 rfl

/-- Concrete document with two identical items. -/
def docDup : List Char :=
  ("<item><title>Same</title><link>u</link></item>" ++
   "<item><title>Same</title><link>u</link></item>").toList

/-- The item both halves of `docDup` parse to. -/
def dupItem : RSSItem :=
  { title := "Same".toList, link := "u".toList, description := [], pubDate := [],
    content := [], guid := [] }

/-- Concrete document with two distinct items in order A, B. -/
def docOrd : List Char :=
  ("<item><title>A</title><link>ua</link></item>" ++
   "<item><title>B</title><link>ub</link></item>").toList

/-- First item of `docOrd`. -/
def itemA : RSSItem :=
  { title := "A".toList, link := "ua".toList, description := [], pubDate := [],
    content := [], guid := [] }

/-- Second item of `docOrd`. -/
def itemB : RSSItem :=
  { title := "B".toList, link := "ub".toList, description := [], pubDate := [],
    content := [], guid := [] }

theorem parseItem_props (c : List Char) (it : RSSItem) (h : parseItem c = some it) :
    it.link.isEmpty = false ∧
      ∃ rawTitle, rawTitle.isEmpty = false ∧ it.title = cleanHTML rawTitle := by
  simp only [parseItem] at h
  split at h
  next hg =>
    cases h
    simp only [Bool.and_eq_true, Bool.not_eq_true'] at hg
    exact ⟨hg.2, ⟨_, hg.1, rfl⟩⟩
  next => cases h

/-- C7 (amended): the extractor is total and silently drops any item whose
raw title or trimmed link is empty, so every emitted item has a non-empty
link and arises from a non-empty raw title — but the emitted title is the
cleansed raw title and may itself be empty (see the counterexample);
emitted items follow document order and duplicates within one document are
not collapsed (concrete documents); a missing feed-level title yields the
placeholder `Unknown Feed`. -/
theorem c7_extractor_amended :
    (∀ xml : List Char, ∀ it ∈ (parseRSS xml).items, it.link.isEmpty = false) ∧
    (∀ xml : List Char, ∀ it ∈ (parseRSS xml).items,
      ∃ rawTitle, rawTitle.isEmpty = false ∧ it.title = cleanHTML rawTitle) ∧
    (∀ xml : List Char,
      scanCP "<title>".toList "]]></title>".toList "</title>".toList xml = none →
      (parseRSS xml).title = "Unknown Feed".toList) ∧
    (parseRSS docDup).items = [dupItem, dupItem] ∧
    (parseRSS docOrd).items = [itemA, itemB] ∧
    (parseRSS "<item><title>T</title></item>".toList).items = [] := by
  refine ⟨?_, ?_, ?_, by decide, by decide, by decide⟩
  · intro xml it hit
    simp only [parseRSS, List.mem_filterMap] at hit
    obtain ⟨blk, _, hp⟩ := hit
    exact (parseItem_props blk it hp).1
  · intro xml it hit
    simp only [parseRSS, List.mem_filterMap] at hit
    obtain ⟨blk, _, hp⟩ := hit
    exact (parseItem_props blk it hp).2
  · intro xml hnone
    simp only [parseRSS]
    rw [hnone]
    rfl

/-- C7 counterexample: an item whose raw title is the markup `<b></b>` is
emitted with an empty cleansed title, so "every emitted item has a
non-empty title" is false on the code. -/
theorem c7_counterexample :
    ((parseRSS "<item><title><b></b></title><link>http://x</link></item>".toList).items.all
      fun it => !it.title.isEmpty) = false := by
  decide

/-- C7 witness: the amended theorem applied to a concrete document and to a
document with no title tag. -/
theorem c7_extractor_witness :
    itemA.link.isEmpty = false ∧ (parseRSS "zzz".toList).title = "Unknown Feed".toList :=
  ⟨c7_extractor_amended.1 docOrd itemA (by decide),
   c7_extractor_amended.2.2.1 "zzz".toList (by decide)⟩

/-- A date parser instance under which every date string is unrecognized
(`new Date(s)` yields an Invalid Date), used to instantiate the pipeline's
date-parsing parameter on strings such as "not a date" that no engine
recognizes. -/
def parseNoDate : List Char → Option Int := fun _ => none

/-- A one-item feed whose item carries a non-empty, unparsable date
string. -/
def feedBogus : RSSFeed :=
  { title := "F".toList
    items := [{ title := "T".toList, link := "u".toList, description := [],
                pubDate := "not a date".toList, content := [], guid := [] }] }

/-- C4 counterexample: for an item with a non-empty unparsable date string
the persisted article's published timestamp is the invalid-date value, not
the current time 42, so "if absent or unparsable, the current time is used"
is false on the code. -/
theorem c4_counterexample :
    ((fetchAndStoreArticles parseNoDate 42 "s1".toList feedBogus
          { articles := [], sources := [] }).2.articles.map ArticleRow.publishedAt) = [none] ∧
      ((fetchAndStoreArticles parseNoDate 42 "s1".toList feedBogus
          { articles := [], sources := [] }).2.articles.map ArticleRow.publishedAt) ≠
        [some 42] := by
  constructor
  · decide
  · decide

theorem createArticle_articles (row : ArticleRow) (st st2 : Storage)
    (h : createArticle row st = some st2) : st2.articles = st.articles ++ [row] := by
  unfold createArticle at h
  split at h
  · cases h
  · cases h
    rfl

/-- C4 (amended): for every ingested item the persisted article's published
timestamp is the parse result of the item's date string whenever that
string is non-empty — the successfully parsed instant, or the invalid-date
value when the parse fails — and the current time exactly when the date
string is absent (empty). -/
theorem c4_published_timestamp_amended :
    ∀ (parseDate : List Char → Option Int) (now : Int) (sourceId : List Char)
      (n : Nat) (st : Storage) (item : RSSItem),
      ∀ r ∈ (ingestItem parseDate now sourceId (n, st) item).2.articles,
        r ∈ st.articles ∨
          r.publishedAt = if item.pubDate.isEmpty then some now else parseDate item.pubDate := by
  intro parseDate now sourceId n st item r hr
  simp only [ingestItem] at hr
  split at hr
  · exact Or.inl hr
  · split at hr
    next st2 heq =>
      have h2 := createArticle_articles _ _ _ heq
      dsimp only at hr
      rw [h2] at hr
      rcases List.mem_append.mp hr with h | h
      · exact Or.inl h
      · rcases List.mem_singleton.mp h with rfl
        exact Or.inr rfl
    next heq => exact Or.inl hr

/-- C4 witness: the amended theorem applied to a concrete item with an
empty date string, yielding the current time 5. -/
theorem c4_published_witness :
    ({ title := "T".toList, url := "u".toList, content := [], snippet := [],
       sourceId := "s".toList, publishedAt := some 5, category := "others".toList,
       fetchedAt := 5 } : ArticleRow).publishedAt = some 5 := by
  have h := c4_published_timestamp_amended parseNoDate 5 "s".toList 0
    { articles := [], sources := [] }
    { title := "T".toList, link := "u".toList, description := [], pubDate := [],
      content := [], guid := [] }
    { title := "T".toList, url := "u".toList, content := [], snippet := [],
      sourceId := "s".toList, publishedAt := some 5, category := "others".toList,
      fetchedAt := 5 }
    (by decide)
  rcases h with h | h
  · cases h
  · exact h.trans (by decide)

/-- Demo article: "quantum leap", category `others`, with content. -/
def artQ1 : Art :=
  { id := "1".toList, title := "quantum leap".toList, snippet := none,
    content := some "c".toList, category := some "others".toList }

/-- Demo article with the same title as `artQ1` but a different id. -/
def artQ1b : Art :=
  { id := "2".toList, title := "quantum leap".toList, snippet := none,
    content := some "c".toList, category := some "others".toList }

/-- Demo article whose title shares no word with `artQ1`. -/
def artZ : Art :=
  { id := "3".toList, title := "alpha beta".toList, snippet := none,
    content := none, category := some "others".toList }

theorem sim_one_of_eq_title (a b : Art) (h : a.title = b.title) :
    calculateSimpleSimilarity a b = 1 := by
  have hcard : (((titleWords b.title).card : ℚ)) ≠ 0 := by
    exact_mod_cast (Finset.card_pos.mpr (titleWords_nonempty b.title)).ne'
  simp only [calculateSimpleSimilarity, h, Finset.inter_self, Finset.union_self]
  exact div_self hcard

theorem sim_zero_of_disjoint (a b : Art)
    (h : titleWords a.title ∩ titleWords b.title = ∅) :
    calculateSimpleSimilarity a b = 0 := by
  simp only [calculateSimpleSimilarity]
  rw [h]
  simp

theorem mem_of_mem_ite_nil {α : Type} {c : Prop} [Decidable c] {l : List α} {e : α}
    (h : e ∈ if c then ([] : List α) else l) : e ∈ l := by
  split at h
  · cases h
  · exact h

theorem cond_of_mem_ite_nil {α : Type} {c : Prop} [Decidable c] {l : List α} {e : α}
    (h : e ∈ if c then l else ([] : List α)) : c ∧ e ∈ l := by
  split at h
  next hc => exact ⟨hc, h⟩
  next => cases h

/-- C10: the linker's similarity is total — the union of the two title word
sets is never empty, so the Jaccard denominator is never zero — symmetric
in its two arguments, and always lies between 0 and 1. -/
theorem c10_similarity_total_symmetric_bounded :
    ∀ article1 article2 : Art,
      0 < (titleWords article1.title ∪ titleWords article2.title).card ∧
      calculateSimpleSimilarity article1 article2 = calculateSimpleSimilarity article2 article1 ∧
      0 ≤ calculateSimpleSimilarity article1 article2 ∧
      calculateSimpleSimilarity article1 article2 ≤ 1 := by
  intro a b
  have hne : (titleWords a.title ∪ titleWords b.title).Nonempty :=
    (titleWords_nonempty a.title).mono Finset.subset_union_left
  have hcard := Finset.card_pos.mpr hne
  have hpos : (0 : ℚ) < ((titleWords a.title ∪ titleWords b.title).card : ℚ) := by
    exact_mod_cast hcard
  refine ⟨hcard, ?_, ?_, ?_⟩
  · simp only [calculateSimpleSimilarity]
    rw [Finset.inter_comm, Finset.union_comm]
  · exact div_nonneg (by positivity) (le_of_lt hpos)
  · simp only [calculateSimpleSimilarity]
    rw [div_le_one hpos]
    exact_mod_cast Finset.card_le_card
      (Finset.inter_subset_left.trans Finset.subset_union_left)

/-- C6: the similarity is the Jaccard overlap of the distinct lowercased
title words — identical titles score 1, word-disjoint titles score 0 — and
every persisted edge has score strictly above 0.3, joins a source article
to a distinct same-category article, and the target was among the first 5
same-category candidates considered. -/
theorem c6_linker_jaccard_edges :
    (∀ article1 article2 : Art, article1.title = article2.title →
      calculateSimpleSimilarity article1 article2 = 1) ∧
    (∀ article1 article2 : Art,
      titleWords article1.title ∩ titleWords article2.title = ∅ →
      calculateSimpleSimilarity article1 article2 = 0) ∧
    (∀ (embed : List Char → List ℚ) (recentArticles : List Art),
      ∀ e ∈ generateRelatedArticles embed recentArticles,
        (3 : ℚ) / 10 < e.similarityScore ∧
        ∃ article ∈ recentArticles, ∃ related,
          related ∈ (recentArticles.filter
            (fun other => decide (other.id ≠ article.id ∧
              other.category = article.category))).take 5 ∧
          e.articleId = article.id ∧ e.relatedArticleId = related.id ∧
          related.id ≠ article.id ∧ related.category = article.category ∧
          e.similarityScore = calculateSimpleSimilarity article related) := by
  refine ⟨sim_one_of_eq_title, sim_zero_of_disjoint, ?_⟩
  intro embed recentArticles e he
  simp only [generateRelatedArticles, List.mem_flatMap] at he
  obtain ⟨article, ha, he2⟩ := he
  have he3 := mem_of_mem_ite_nil (mem_of_mem_ite_nil he2)
  simp only [List.mem_flatMap] at he3
  obtain ⟨related, hrel, he4⟩ := he3
  obtain ⟨hscore, he5⟩ := cond_of_mem_ite_nil he4
  rcases List.mem_singleton.mp he5 with rfl
  have hrelmem := List.mem_filter.mp (List.take_subset 5 _ hrel)
  have hprops := of_decide_eq_true hrelmem.2
  exact ⟨hscore, article, ha, related, hrel, rfl, rfl, hprops.1, hprops.2, rfl⟩

theorem genRel_demo :
    generateRelatedArticles (fun _ => [(1 : ℚ)]) [artQ1, artQ1b] =
      [{ articleId := "1".toList, relatedArticleId := "2".toList, similarityScore := 1 },
       { articleId := "2".toList, relatedArticleId := "1".toList, similarityScore := 1 }] := by
  have h1 : calculateSimpleSimilarity artQ1 artQ1b = 1 := sim_one_of_eq_title _ _ rfl
  have h2 : calculateSimpleSimilarity artQ1b artQ1 = 1 := sim_one_of_eq_title _ _ rfl
  simp [artQ1, artQ1b] at h1 h2
  simp [generateRelatedArticles, artQ1, artQ1b, h1, h2]
  norm_num

/-- C6 witness: the theorem applied at concrete articles — identical titles
score 1, disjoint titles score 0, and a concretely persisted edge exceeds
0.3. -/
theorem c6_linker_witness :
    calculateSimpleSimilarity artQ1 artQ1 = 1 ∧
    calculateSimpleSimilarity artQ1 artZ = 0 ∧
    (3 : ℚ) / 10 <
      ({ articleId := "1".toList, relatedArticleId := "2".toList,
         similarityScore := 1 } : RelatedEdge).similarityScore :=
  ⟨c6_linker_jaccard_edges.1 artQ1 artQ1 rfl,
   c6_linker_jaccard_edges.2.1 artQ1 artZ (by decide),
   (c6_linker_jaccard_edges.2.2 (fun _ => [(1 : ℚ)]) [artQ1, artQ1b] _
      (by rw [genRel_demo]; exact List.mem_cons_self _ _)).1⟩

/-- A source row whose feed fetch will fail in the C8 witness. -/
def badSrc : SourceRow :=
  { id := "s".toList, name := "n".toList, url := "u".toList,
    rssUrl := some "r".toList, isActive := true, lastFetchAt := none }

/-- C8: a failed fetch for a source returns zero articles and leaves the
store untouched — in particular the source's last-fetch timestamp is not
updated and no articles are created — and the per-source loop behaves on a
source list containing the failing source exactly as on the list without
it: processing continues with the next source and the run is not
aborted. -/
theorem c8_fetch_failure_skips_source :
    (∀ (parseDate : List Char → Option Int) (now : Int) (sourceId : List Char) (st : Storage),
      fetchAndStore parseDate now sourceId none st = (0, st)) ∧
    (∀ (parseDate : List Char → Option Int) (now : Int)
      (fetchOf : List Char → Option RSSFeed) (xs ys : List SourceRow) (bad : SourceRow)
      (st : Storage),
      bad.rssUrl.getD [] ≠ [] → bad.isActive = true →
      fetchOf (bad.rssUrl.getD []) = none →
      fetchAllSourcesList parseDate now fetchOf (xs ++ bad :: ys) st =
        fetchAllSourcesList parseDate now fetchOf (xs ++ ys) st) := by
  constructor
  · intro parseDate now sourceId st
    rfl
  · intro parseDate now fetchOf xs ys bad st h1 h2 h3
    have hstep : ∀ st2 : Storage, runSource parseDate now fetchOf st2 bad = st2 := by
      intro st2
      simp [runSource, h1, h2, h3, fetchAndStore]
    simp only [fetchAllSourcesList, List.foldl_append, List.foldl_cons, hstep]

/-- C8 witness: the theorem applied to a concrete failing source, alone in
the run. -/
theorem c8_fetch_failure_witness :
    fetchAndStore parseNoDate 1 "s".toList none { articles := [], sources := [] } =
      (0, { articles := [], sources := [] }) ∧
    fetchAllSourcesList parseNoDate 1 (fun _ => none) [badSrc]
        { articles := [], sources := [badSrc] } =
      { articles := [], sources := [badSrc] } :=
  ⟨c8_fetch_failure_skips_source.1 parseNoDate 1 "s".toList _,
   (c8_fetch_failure_skips_source.2 parseNoDate 1 (fun _ => none) [] [] badSrc
      { articles := [], sources := [badSrc] } (by decide) rfl rfl).trans rfl⟩

/-- The per-item search predicate of the coordinator's duplicate check
(`title LIKE '%t%' OR content LIKE '%t%'`). -/
def searchHit (q : List Char) (a : ArticleRow) : Bool :=
  likeContains q a.title || likeContains q a.content

theorem getArticles_eq (q : List Char) (lim : Nat) (st : Storage) :
    getArticles q lim st =
      (sortBy (fun a b => pubBefore a.publishedAt b.publishedAt)
        (st.articles.filter (searchHit q))).take lim := rfl

theorem getArticles_ne_nil (q : List Char) (st : Storage) :
    getArticles q 1 st ≠ [] ↔ st.articles.filter (searchHit q) ≠ [] := by
  rw [getArticles_eq]
  have hperm := sortBy_perm (fun a b => pubBefore a.publishedAt b.publishedAt)
    (st.articles.filter (searchHit q))
  constructor
  · intro h hnil
    apply h
    rw [hnil]
    rfl
  · intro h hnil
    apply h
    rw [List.take_eq_nil_iff] at hnil
    rcases hnil with h1 | h1
    · cases h1
    · exact List.Perm.eq_nil (h1 ▸ hperm).symm

theorem filter_ne_nil_append {α : Type} (p : α → Bool) (l t : List α)
    (h : l.filter p ≠ []) : (l ++ t).filter p ≠ [] := by
  rw [List.filter_append]
  intro hc
  exact h (List.append_eq_nil.mp hc).1

/-- An item is settled in an article list when the duplicate search finds a
hit or an article with the item's URL already exists (so the unique `url`
constraint rejects a new insert). -/
def itemSettled (item : RSSItem) (arts : List ArticleRow) : Prop :=
  arts.filter (searchHit item.title) ≠ [] ∨ ∃ a ∈ arts, a.url = item.link

theorem itemSettled_append (item : RSSItem) (arts t : List ArticleRow)
    (h : itemSettled item arts) : itemSettled item (arts ++ t) := by
  rcases h with h | ⟨a, ha, hu⟩
  · exact Or.inl (filter_ne_nil_append _ _ _ h)
  · exact Or.inr ⟨a, List.mem_append_left t ha, hu⟩

theorem getArticles_isEmpty_true (q : List Char) (st : Storage)
    (h : getArticles q 1 st = []) : (getArticles q 1 st).isEmpty = true := by
  rw [h]
  rfl

theorem getArticles_isEmpty_false (q : List Char) (st : Storage)
    (h : getArticles q 1 st ≠ []) : (getArticles q 1 st).isEmpty = false := by
  rcases hg : getArticles q 1 st with _ | _
  · exact absurd hg h
  · rfl

theorem ingestItem_extends (parseDate : List Char → Option Int) (now : Int)
    (sourceId : List Char) (n : Nat) (st : Storage) (item : RSSItem) :
    (∃ t, (ingestItem parseDate now sourceId (n, st) item).2.articles = st.articles ++ t) ∧
      (ingestItem parseDate now sourceId (n, st) item).2.sources = st.sources := by
  by_cases hfound : getArticles item.title 1 st ≠ []
  · simp [ingestItem, getArticles_isEmpty_false _ _ hfound]
  · push_neg at hfound
    simp only [ingestItem, getArticles_isEmpty_true _ _ hfound, Bool.not_true,
      Bool.false_eq_true, if_false]
    rcases hca : createArticle (buildRow parseDate now sourceId item) st with _ | st2
    · simp
    · have harts := createArticle_articles _ _ _ hca
      have hsrc : st2.sources = st.sources := by
        unfold createArticle at hca
        split at hca
        · cases hca
        · cases hca
          rfl
      exact ⟨⟨_, harts⟩, hsrc⟩

theorem ingestItem_skip (parseDate : List Char → Option Int) (now : Int)
    (sourceId : List Char) (n : Nat) (st : Storage) (item : RSSItem)
    (h : itemSettled item st.articles) :
    ingestItem parseDate now sourceId (n, st) item = (n, st) := by
  by_cases hfound : getArticles item.title 1 st ≠ []
  · simp [ingestItem, getArticles_isEmpty_false _ _ hfound]
  · push_neg at hfound
    rcases h with h | ⟨a, ha, hu⟩
    · exact absurd ((getArticles_ne_nil item.title st).mpr h)
        (by simpa using hfound)
    · simp only [ingestItem, getArticles_isEmpty_true _ _ hfound, Bool.not_true,
        Bool.false_eq_true, if_false]
      have hca : createArticle (buildRow parseDate now sourceId item) st = none := by
        unfold createArticle
        have hany : (st.articles.any fun a2 =>
            decide (a2.url = (buildRow parseDate now sourceId item).url)) = true := by
          refine List.any_eq_true.mpr ⟨a, ha, decide_eq_true ?_⟩
          exact hu
        rw [if_pos hany]
      rw [hca]

theorem buildRow_hit (parseDate : List Char → Option Int) (now : Int)
    (sourceId : List Char) (item : RSSItem) :
    searchHit item.title (buildRow parseDate now sourceId item) = true := by
  simp [searchHit, buildRow, likeContains_self]

theorem ingestItem_settles (parseDate : List Char → Option Int) (now : Int)
    (sourceId : List Char) (n : Nat) (st : Storage) (item : RSSItem) :
    itemSettled item (ingestItem parseDate now sourceId (n, st) item).2.articles := by
  by_cases hfound : getArticles item.title 1 st ≠ []
  · have hleft := (getArticles_ne_nil item.title st).mp hfound
    simp only [ingestItem, getArticles_isEmpty_false _ _ hfound, Bool.not_false, if_true]
    exact Or.inl hleft
  · push_neg at hfound
    simp only [ingestItem, getArticles_isEmpty_true _ _ hfound, Bool.not_true,
      Bool.false_eq_true, if_false]
    rcases hca : createArticle (buildRow parseDate now sourceId item) st with _ | st2
    · unfold createArticle at hca
      split at hca
      next hany =>
        obtain ⟨a, ha, hu⟩ := List.any_eq_true.mp hany
        exact Or.inr ⟨a, ha, of_decide_eq_true hu⟩
      next => cases hca
    · left
      rw [createArticle_articles _ _ _ hca, List.filter_append]
      intro hc
      have h2 := (List.append_eq_nil.mp hc).2
      rw [List.filter_cons, buildRow_hit] at h2
      cases h2

theorem foldl_ingest_extends (parseDate : List Char → Option Int) (now : Int)
    (sourceId : List Char) :
    ∀ (items : List RSSItem) (acc : Nat × Storage),
      (∃ t, (items.foldl (ingestItem parseDate now sourceId) acc).2.articles =
        acc.2.articles ++ t) ∧
      (items.foldl (ingestItem parseDate now sourceId) acc).2.sources = acc.2.sources := by
  intro items
  induction items with
  | nil => intro acc; exact ⟨⟨[], by simp⟩, rfl⟩
  | cons i rest ih =>
    intro acc
    obtain ⟨n, st⟩ := acc
    simp only [List.foldl_cons]
    obtain ⟨⟨t1, h1⟩, hs1⟩ := ingestItem_extends parseDate now sourceId n st i
    obtain ⟨⟨t2, h2⟩, hs2⟩ := ih (ingestItem parseDate now sourceId (n, st) i)
    refine ⟨⟨t1 ++ t2, ?_⟩, ?_⟩
    · rw [h2, h1, List.append_assoc]
    · rw [hs2, hs1]

theorem foldl_ingest_settles (parseDate : List Char → Option Int) (now : Int)
    (sourceId : List Char) :
    ∀ (items : List RSSItem) (acc : Nat × Storage) (item : RSSItem), item ∈ items →
      itemSettled item (items.foldl (ingestItem parseDate now sourceId) acc).2.articles := by
  intro items
  induction items with
  | nil => intro acc item h; cases h
  | cons i rest ih =>
    intro acc item h
    obtain ⟨n, st⟩ := acc
    simp only [List.foldl_cons]
    rcases List.mem_cons.mp h with rfl | hmem
    · have hset := ingestItem_settles parseDate now sourceId n st item
      obtain ⟨⟨t, ht⟩, _⟩ := foldl_ingest_extends parseDate now sourceId rest
        (ingestItem parseDate now sourceId (n, st) item)
      rw [ht]
      exact itemSettled_append _ _ _ hset
    · exact ih _ item hmem

theorem foldl_ingest_skip (parseDate : List Char → Option Int) (now : Int)
    (sourceId : List Char) :
    ∀ (items : List RSSItem) (n : Nat) (st : Storage),
      (∀ item ∈ items, itemSettled item st.articles) →
      items.foldl (ingestItem parseDate now sourceId) (n, st) = (n, st) := by
  intro items
  induction items with
  | nil => intro n st _; rfl
  | cons i rest ih =>
    intro n st h
    simp only [List.foldl_cons]
    rw [ingestItem_skip parseDate now sourceId n st i (h i (List.mem_cons_self i rest))]
    exact ih n st (fun item hm => h item (List.mem_cons_of_mem i hm))

theorem updateSourceLastFetch_spec (id : List Char) (now : Int) (st : Storage) :
    ∀ s ∈ (updateSourceLastFetch id now st).sources,
      s.id = id → s.lastFetchAt = some now := by
  intro s hs hid
  simp only [updateSourceLastFetch, List.mem_map] at hs
  obtain ⟨s0, h0, heq⟩ := hs
  by_cases hc : s0.id = id
  · rw [if_pos hc] at heq
    rw [← heq]
  · rw [if_neg hc] at heq
    rw [← heq] at hid
    exact absurd hid hc

/-- C1: running ingestion twice over an unchanged feed creates zero new
articles in the second run and leaves the article table unchanged; the
source's last-fetch timestamp is set to the run's current time in both
runs, including the run that creates zero articles; and whenever an article
with exactly the item's title already exists, the coordinator's duplicate
check finds it and the item is skipped, leaving count and store
untouched. -/
theorem c1_second_run_idempotent :
    ∀ (parseDate : List Char → Option Int) (now1 now2 : Int) (sourceId : List Char)
      (feed : RSSFeed) (st0 : Storage),
      (fetchAndStoreArticles parseDate now2 sourceId feed
          (fetchAndStoreArticles parseDate now1 sourceId feed st0).2).1 = 0 ∧
      (fetchAndStoreArticles parseDate now2 sourceId feed
          (fetchAndStoreArticles parseDate now1 sourceId feed st0).2).2.articles =
        (fetchAndStoreArticles parseDate now1 sourceId feed st0).2.articles ∧
      (∀ s ∈ (fetchAndStoreArticles parseDate now1 sourceId feed st0).2.sources,
        s.id = sourceId → s.lastFetchAt = some now1) ∧
      (∀ s ∈ (fetchAndStoreArticles parseDate now2 sourceId feed
          (fetchAndStoreArticles parseDate now1 sourceId feed st0).2).2.sources,
        s.id = sourceId → s.lastFetchAt = some now2) ∧
      (∀ (n : Nat) (st : Storage) (item : RSSItem),
        (∃ a ∈ st.articles, a.title = item.title) →
        ingestItem parseDate now2 sourceId (n, st) item = (n, st)) := by
  intro parseDate now1 now2 sourceId feed st0
  have harts1 : (fetchAndStoreArticles parseDate now1 sourceId feed st0).2.articles =
      (feed.items.foldl (ingestItem parseDate now1 sourceId) (0, st0)).2.articles := rfl
  have hsettled : ∀ item ∈ feed.items,
      itemSettled item (fetchAndStoreArticles parseDate now1 sourceId feed st0).2.articles := by
    intro item hm
    rw [harts1]
    exact foldl_ingest_settles parseDate now1 sourceId feed.items (0, st0) item hm
  have hfold2 : feed.items.foldl (ingestItem parseDate now2 sourceId)
      (0, (fetchAndStoreArticles parseDate now1 sourceId feed st0).2) =
      (0, (fetchAndStoreArticles parseDate now1 sourceId feed st0).2) :=
    foldl_ingest_skip parseDate now2 sourceId feed.items 0 _ hsettled
  refine ⟨?_, ?_, ?_, ?_, ?_⟩
  · show (feed.items.foldl (ingestItem parseDate now2 sourceId)
        (0, (fetchAndStoreArticles parseDate now1 sourceId feed st0).2)).1 = 0
    rw [hfold2]
  · show (updateSourceLastFetch sourceId now2
        (feed.items.foldl (ingestItem parseDate now2 sourceId)
          (0, (fetchAndStoreArticles parseDate now1 sourceId feed st0).2)).2).articles = _
    rw [hfold2]
    rfl
  · exact updateSourceLastFetch_spec sourceId now1 _
  · intro s hs hid
    refine updateSourceLastFetch_spec sourceId now2
      (feed.items.foldl (ingestItem parseDate now2 sourceId)
        (0, (fetchAndStoreArticles parseDate now1 sourceId feed st0).2)).2 s ?_ hid
    exact hs
  · intro n st item ⟨a, ha, htitle⟩
    apply ingestItem_skip
    left
    apply List.ne_nil_of_mem (a := a)
    refine List.mem_filter.mpr ⟨ha, ?_⟩
    simp [searchHit, htitle, likeContains_self]

/-- The source used in the C1 witness run. -/
def srcW : SourceRow :=
  { id := "s1".toList, name := "n".toList, url := "u".toList,
    rssUrl := some "r".toList, isActive := true, lastFetchAt := none }

/-- The one-item feed used in the C1 witness run. -/
def feedW : RSSFeed :=
  { title := "F".toList
    items := [{ title := "T".toList, link := "u1".toList, description := [],
                pubDate := [], content := [], guid := [] }] }

/-- The initial store of the C1 witness run. -/
def stW : Storage := { articles := [], sources := [srcW] }

/-- C1 witness: the theorem applied to a concrete one-source, one-item run
executed twice, and to a concrete duplicate-title skip. -/
theorem c1_second_run_witness :
    (fetchAndStoreArticles parseNoDate 7 "s1".toList feedW
        (fetchAndStoreArticles parseNoDate 5 "s1".toList feedW stW).2).1 = 0 ∧
    ({ id := "s1".toList, name := "n".toList, url := "u".toList, rssUrl := some "r".toList,
       isActive := true, lastFetchAt := some 5 } : SourceRow).lastFetchAt = some 5 ∧
    ingestItem parseNoDate 7 "s1".toList
      (0, { articles := [{ title := "T".toList, url := "u9".toList, content := [],
                           snippet := [], sourceId := "s1".toList, publishedAt := some 1,
                           category := "others".toList, fetchedAt := 1 }], sources := [] })
      { title := "T".toList, link := "u1".toList, description := [], pubDate := [],
        content := [], guid := [] } =
    (0, { articles := [{ title := "T".toList, url := "u9".toList, content := [],
                         snippet := [], sourceId := "s1".toList, publishedAt := some 1,
                         category := "others".toList, fetchedAt := 1 }], sources := [] }) :=
  ⟨(c1_second_run_idempotent parseNoDate 5 7 "s1".toList feedW stW).1,
   (c1_second_run_idempotent parseNoDate 5 7 "s1".toList feedW stW).2.2.1 _ (by decide) rfl,
   (c1_second_run_idempotent parseNoDate 5 7 "s1".toList feedW stW).2.2.2.2 0 _ _
     ⟨_, List.mem_singleton.mpr rfl, rfl⟩⟩

theorem bump_keys [DecidableEq K] (k : K) (m : List (K × Nat)) :
    (bump k m).map Prod.fst =
      if k ∈ m.map Prod.fst then m.map Prod.fst else m.map Prod.fst ++ [k] := by
  induction m with
  | nil => simp [bump]
  | cons e rest ih =>
    obtain ⟨k2, n⟩ := e
    by_cases h : k2 = k
    · subst h
      simp [bump]
    · by_cases hk : k ∈ rest.map Prod.fst <;>
        simp [bump, h, Ne.symm h, hk, ih]

theorem bump_keys_nodup [DecidableEq K] (k : K) (m : List (K × Nat))
    (h : (m.map Prod.fst).Nodup) : ((bump k m).map Prod.fst).Nodup := by
  rw [bump_keys]
  split
  · exact h
  next hk =>
    refine h.append (List.nodup_singleton k) ?_
    intro x hx hx2
    rw [List.mem_singleton.mp hx2] at hx
    exact hk hx

theorem bumpMany_keys_nodup [DecidableEq K] (ks : List K) (m : List (K × Nat))
    (h : (m.map Prod.fst).Nodup) : ((bumpMany ks m).map Prod.fst).Nodup := by
  induction ks generalizing m with
  | nil => exact h
  | cons k rest ih => exact ih (bump k m) (bump_keys_nodup k m h)

/-- Association-list lookup with decidable key equality. -/
def lookupKey [DecidableEq K] {V : Type} (k : K) : List (K × V) → Option V
  | [] => none
  | (k2, v) :: rest => if k2 = k then some v else lookupKey k rest

theorem lookup_of_mem_nodup [DecidableEq K] {V : Type} (m : List (K × V)) (k : K) (v : V)
    (hnd : (m.map Prod.fst).Nodup) (hm : (k, v) ∈ m) : lookupKey k m = some v := by
  induction m with
  | nil => cases hm
  | cons e rest ih =>
    obtain ⟨k2, v2⟩ := e
    rcases List.mem_cons.mp hm with heq | hmem
    · cases heq
      simp [lookupKey]
    · by_cases hk : k2 = k
      · subst hk
        exfalso
        have : k2 ∈ rest.map Prod.fst := List.mem_map.mpr ⟨(k2, v), hmem, rfl⟩
        exact (List.nodup_cons.mp hnd).1 this
      · simp only [lookupKey, if_neg hk]
        exact ih (List.nodup_cons.mp hnd).2 hmem

theorem updateKey_keys [DecidableEq K] {V : Type} (k : K) (f : V → V) (m : List (K × V)) :
    (updateKey k f m).map Prod.fst = m.map Prod.fst := by
  induction m with
  | nil => rfl
  | cons e rest ih =>
    simp only [updateKey, List.map_cons] at ih ⊢
    split <;> simp_all

theorem ensureKey_keys_nodup [DecidableEq K] {V : Type} (k : K)
    (m : List (K × List (V × Nat))) (h : (m.map Prod.fst).Nodup) :
    ((ensureKey k m).map Prod.fst).Nodup := by
  unfold ensureKey
  split
  · exact h
  next hany =>
    rw [List.map_append]
    refine h.append (by simp) ?_
    intro x hx hx2
    simp only [List.map_cons, List.map_nil, List.mem_singleton] at hx2
    subst hx2
    obtain ⟨⟨k2, v2⟩, hmem, hfst⟩ := List.mem_map.mp hx
    exact hany (List.any_eq_true.mpr ⟨(k2, v2), hmem, decide_eq_true hfst⟩)

theorem trendCounts_keys_nodup (arts : List Art) :
    (((trendCounts arts).1.map Prod.fst).Nodup) ∧
      (((trendCounts arts).2.map Prod.fst).Nodup) := by
  suffices h : ∀ (acc : List (List Char × Nat) × List (List Char × List (List Char × Nat))),
      (acc.1.map Prod.fst).Nodup → (acc.2.map Prod.fst).Nodup →
      ((arts.foldl
        (fun acc a =>
          let keywords := extractKeywords (trendText a)
          let categoryKey := a.category.getD []
          let cats := ensureKey categoryKey acc.2
          (bumpMany keywords acc.1, updateKey categoryKey (bumpMany keywords) cats))
        acc).1.map Prod.fst).Nodup ∧
      ((arts.foldl
        (fun acc a =>
          let keywords := extractKeywords (trendText a)
          let categoryKey := a.category.getD []
          let cats := ensureKey categoryKey acc.2
          (bumpMany keywords acc.1, updateKey categoryKey (bumpMany keywords) cats))
        acc).2.map Prod.fst).Nodup by
    exact h ([], []) (by simp) (by simp)
  induction arts with
  | nil => intro acc h1 h2; exact ⟨h1, h2⟩
  | cons a rest ih =>
    intro acc h1 h2
    refine ih _ (bumpMany_keys_nodup _ _ h1) ?_
    rw [updateKey_keys]
    exact ensureKey_keys_nodup _ _ h2

/-- Third demo article with the "quantum leap" title. -/
def artQ1c : Art :=
  { id := "4".toList, title := "quantum leap".toList, snippet := none,
    content := some "c".toList, category := some "others".toList }

/-- C5: a trending run persists as global records exactly the keywords
among the count-sorted top 20 with at least 3 mentions, and as
category-tagged records exactly the keywords among that category's top 10
with at least 2 mentions; a keyword with exactly 2 global mentions yields
no global record, yet — as the concrete run shows — can still yield a
category-tagged record. -/
theorem c5_trending_thresholds :
    (∀ (today : Int) (arts : List Art) (r : TrendingRecord),
      r ∈ updateTrendingTopics today arts → r.category = none →
      3 ≤ r.count ∧ (r.topic, r.count) ∈ (sortBy byCountDesc (trendCounts arts).1).take 20) ∧
    (∀ (today : Int) (arts : List Art) (e : List Char × Nat),
      e ∈ (sortBy byCountDesc (trendCounts arts).1).take 20 → 3 ≤ e.2 →
      ∃ r ∈ updateTrendingTopics today arts,
        r.topic = e.1 ∧ r.count = e.2 ∧ r.category = none) ∧
    (∀ (today : Int) (arts : List Art) (r : TrendingRecord) (c : List Char),
      r ∈ updateTrendingTopics today arts → r.category = some c →
      2 ≤ r.count ∧ ∃ m, lookupKey c (trendCounts arts).2 = some m ∧
        (r.topic, r.count) ∈ (sortBy byCountDesc m).take 10) ∧
    (∀ (today : Int) (arts : List Art) (ct : List Char × List (List Char × Nat))
      (e : List Char × Nat),
      ct ∈ (trendCounts arts).2 → e ∈ (sortBy byCountDesc ct.2).take 10 → 2 ≤ e.2 →
      ∃ r ∈ updateTrendingTopics today arts,
        r.topic = e.1 ∧ r.count = e.2 ∧ r.category = some ct.1) ∧
    (∀ (today : Int) (arts : List Art) (kw : List Char) (r : TrendingRecord),
      lookupKey kw (trendCounts arts).1 = some 2 →
      r ∈ updateTrendingTopics today arts → r.category = none → r.topic ≠ kw) ∧
    updateTrendingTopics 0 [artQ1, artQ1b] =
      [{ date := 0, topic := "quantum".toList, count := 2,
         category := some "others".toList, growthRate := 10 }] := by
  have hglobal : ∀ (today : Int) (arts : List Art) (r : TrendingRecord),
      r ∈ updateTrendingTopics today arts → r.category = none →
      3 ≤ r.count ∧ (r.topic, r.count) ∈ (sortBy byCountDesc (trendCounts arts).1).take 20 := by
    intro today arts r hr hcat
    simp only [updateTrendingTopics, List.mem_append] at hr
    rcases hr with hr | hr
    · simp only [List.mem_map, List.mem_filter] at hr
      obtain ⟨e, ⟨he, hcount⟩, rfl⟩ := hr
      exact ⟨of_decide_eq_true hcount, he⟩
    · simp only [List.mem_flatMap, List.mem_map, List.mem_filter] at hr
      obtain ⟨ct, _, e, _, rfl⟩ := hr
      cases hcat
  refine ⟨hglobal, ?_, ?_, ?_, ?_, by decide⟩
  · intro today arts e he hcount
    refine ⟨{ date := today, topic := e.1, count := e.2, category := none,
              growthRate := calculateGrowthRate e.1 e.2 }, ?_, rfl, rfl, rfl⟩
    simp only [updateTrendingTopics, List.mem_append]
    left
    simp only [List.mem_map, List.mem_filter]
    exact ⟨e, ⟨he, decide_eq_true hcount⟩, rfl⟩
  · intro today arts r c hr hcat
    simp only [updateTrendingTopics, List.mem_append] at hr
    rcases hr with hr | hr
    · simp only [List.mem_map, List.mem_filter] at hr
      obtain ⟨e, _, rfl⟩ := hr
      cases hcat
    · simp only [List.mem_flatMap, List.mem_map, List.mem_filter] at hr
      obtain ⟨ct, hct, e, ⟨he, hcount⟩, rfl⟩ := hr
      cases hcat
      refine ⟨of_decide_eq_true hcount, ct.2, ?_, he⟩
      exact lookup_of_mem_nodup _ _ _ (trendCounts_keys_nodup arts).2 hct
  · intro today arts ct e hct he hcount
    refine ⟨{ date := today, topic := e.1, count := e.2, category := some ct.1,
              growthRate := calculateGrowthRate e.1 e.2 }, ?_, rfl, rfl, rfl⟩
    simp only [updateTrendingTopics, List.mem_append]
    right
    simp only [List.mem_flatMap, List.mem_map, List.mem_filter]
    exact ⟨ct, hct, e, ⟨he, decide_eq_true hcount⟩, rfl⟩
  · intro today arts kw r hlook hr hcat heq
    obtain ⟨hcount, hmem⟩ := hglobal today arts r hr hcat
    have hmem2 : (r.topic, r.count) ∈ (trendCounts arts).1 :=
      (sortBy_perm byCountDesc (trendCounts arts).1).subset (List.take_subset 20 _ hmem)
    rw [heq] at hmem2
    have := lookup_of_mem_nodup _ _ _ (trendCounts_keys_nodup arts).1 hmem2
    rw [hlook] at this
    have h2 : r.count = 2 := (Option.some.inj this).symm
    omega

/-- C5 witness: the theorem applied to a concrete three-article run whose
keyword "quantum" reaches the global threshold. -/
theorem c5_trending_witness :
    3 ≤ ({ date := 0, topic := "quantum".toList, count := 3, category := none,
           growthRate := 20 } : TrendingRecord).count ∧
    (("quantum".toList, 3) ∈
      (sortBy byCountDesc (trendCounts [artQ1, artQ1b, artQ1c]).1).take 20) :=
  c5_trending_thresholds.1 0 [artQ1, artQ1b, artQ1c]
    { date := 0, topic := "quantum".toList, count := 3, category := none, growthRate := 20 }
    (by decide) rfl
